import Mathlib

/-!
Verification of the ChopChop fridge application's receipt-to-inventory
pipeline and inventory operations.

The JavaScript sources embedded here:
- `src/client/src/components/ReceiptUpload.jsx` (`callGeminiAPI`, `handleScan`):
  fence stripping, `JSON.parse`, per-entry materialization with
  `(it.perish_in_days || 0) * 24*60*60*1000` and a single `now` per batch.
- `src/unnamed/part_002` (RecipeList `callGeminiAPI`): splitting the model
  response at `/^##\s+/gm`, `filter(Boolean)`, re-attaching the `## ` marker.
- `src/client/src/components/Fridge.jsx` (`handleClearExpired`,
  `handleSaveEdit`, `handleAddItem`).

JavaScript strings are modelled as `List Char` / `String`; timestamps as
milliseconds (`Int`); JS numbers arising in this pipeline as exact decimal
values `m * 10 ^ e` (mantissa/exponent pairs), which is exact for every value
the pipeline computes with; `undefined` as `Option.none`.
-/

namespace Chop

/-- Whitespace class used by the JS regexes `\s` and `String.trim` in the
sources, restricted to the ASCII whitespace characters (the Unicode
whitespace code points also matched by JS never occur in the texts the
pipeline handles). -/
def jsWs (c : Char) : Bool :=
  c == ' ' || c == '\t' || c == '\n' || c == '\r' || c == '\x0b' || c == '\x0c'

/-- Drop leading JS whitespace. -/
def dropWs (l : List Char) : List Char := l.dropWhile jsWs

/-- Model of JS `String.prototype.trim` on character lists. -/
def jsTrim (l : List Char) : List Char :=
  (dropWs ((dropWs l).reverse)).reverse

/-- String-level version of `jsTrim`. -/
def jsTrimS (s : String) : String := String.mk (jsTrim s.toList)

/-- Does a pattern match at the head of a list (prefix test)? -/
def leadMatch : List Char → List Char → Bool
  | [], _ => true
  | _ :: _, [] => false
  | p :: ps, c :: cs => p == c && leadMatch ps cs

/-- Fuelled global replace-by-empty: model of JS
`str.replace(/pat/g, '')` for a literal pattern `pat`.  Scans left to
right; on a match the pattern is dropped and scanning resumes after it
(no rescan of the replacement site), exactly as the JS engine does. -/
def replAllF (pat : List Char) : Nat → List Char → List Char
  | 0, l => l
  | _ + 1, [] => []
  | f + 1, c :: rest =>
    if leadMatch pat (c :: rest) then replAllF pat f ((c :: rest).drop pat.length)
    else c :: replAllF pat f rest

/-- Global removal of every occurrence of `pat`. -/
def replAll (pat l : List Char) : List Char := replAllF pat l.length l

/-- Backquote character (written via its code point to keep it out of
character literals). -/
def bq : Char := Char.ofNat 96

/-- The characters of the opening fence marker the code strips first:
`replace(/```json/g, '')`. -/
def fenceJson : List Char := [bq, bq, bq, 'j', 's', 'o', 'n']

/-- The characters of the bare fence marker stripped second:
`replace(/```/g, '')`. -/
def fence3 : List Char := [bq, bq, bq]

/-- Model of ReceiptUpload.jsx lines 103-107: the response text is trimmed,
every occurrence of the ```json marker is removed, then every ``` marker,
then the result is trimmed again. -/
def cleanL (l : List Char) : List Char :=
  jsTrim (replAll fence3 (replAll fenceJson (jsTrim l)))

/-- String-level cleanup applied to the extraction response before
`JSON.parse`. -/
def cleanLLMText (s : String) : String := String.mk (cleanL s.toList)

/-- The code-fenced wrapping of a response text described by the spec:
the text surrounded by the ```json and ``` fence markers. -/
def fenceWrap (t : String) : String := "```json\n" ++ t ++ "\n```"

/-- All characters of a list are JS whitespace. -/
def allWs (l : List Char) : Prop := ∀ c ∈ l, jsWs c = true

/-- No character of a list is JS whitespace (true of both fence patterns). -/
def wsFree (l : List Char) : Prop := ∀ c ∈ l, jsWs c = false

/-- JSON values as produced by `JSON.parse`.  Numbers are kept as exact
decimal values `n * 10 ^ e` (JSON number literals are decimal, so this is
lossless; the float rounding JS would apply is irrelevant to every value
this pipeline computes). -/
inductive JVal where
  | jnull : JVal
  | jbool (b : Bool) : JVal
  | jnum (n : Int) (e : Int) : JVal
  | jstr (s : String) : JVal
  | jarr (elems : List JVal) : JVal
  | jobj (fields : List (String × JVal)) : JVal

/-- Opening brace character (kept out of string/char literals). -/
def lbrace : Char := Char.ofNat 123

/-- Closing brace character (kept out of string/char literals). -/
def rbrace : Char := Char.ofNat 125

/-- JSON insignificant whitespace (per the JSON grammar: space, tab,
newline, carriage return). -/
def jsonWsB (c : Char) : Bool :=
  c == ' ' || c == '\t' || c == '\n' || c == '\r'

/-- Skip JSON whitespace. -/
def skipJWs (l : List Char) : List Char := l.dropWhile jsonWsB

/-- Numeric value of a hexadecimal digit, if it is one. -/
def hexDigVal (c : Char) : Option Nat :=
  if c.isDigit then some (c.toNat - 48)
  else if 'a' ≤ c && c ≤ 'f' then some (c.toNat - 87)
  else if 'A' ≤ c && c ≤ 'F' then some (c.toNat - 55)
  else none

/-- Body of a JSON string literal (after the opening quote): ordinary
characters, the JSON escapes, and `\uXXXX` code units.  Unescaped control
characters are rejected, as `JSON.parse` rejects them.  (`\u` escapes in
the surrogate range, which denote no scalar value, are mapped to the
default character; no theorem below touches that case.) -/
def parseJStrL : List Char → Option (List Char × List Char)
  | [] => none
  | c :: r =>
    if c == '\"' then some ([], r)
    else if c == '\\' then
      match r with
      | [] => none
      | 'u' :: h1 :: h2 :: h3 :: h4 :: r2 =>
        match hexDigVal h1, hexDigVal h2, hexDigVal h3, hexDigVal h4 with
        | some a, some b, some cc, some d =>
          match parseJStrL r2 with
          | some (cs, rest) => some (Char.ofNat (((a * 16 + b) * 16 + cc) * 16 + d) :: cs, rest)
          | none => none
        | _, _, _, _ => none
      | e :: r2 =>
        match
          (if e == '\"' then some '\"'
           else if e == '\\' then some '\\'
           else if e == '/' then some '/'
           else if e == 'b' then some (Char.ofNat 8)
           else if e == 'f' then some (Char.ofNat 12)
           else if e == 'n' then some '\n'
           else if e == 'r' then some '\r'
           else if e == 't' then some '\t'
           else none) with
        | some d =>
          match parseJStrL r2 with
          | some (cs, rest) => some (d :: cs, rest)
          | none => none
        | none => none
    else if c.toNat < 32 then none
    else
      match parseJStrL r with
      | some (cs, rest) => some (c :: cs, rest)
      | none => none

/-- Decimal value of a digit run. -/
def digitsVal (l : List Char) : Nat :=
  l.foldl (fun a c => a * 10 + (c.toNat - 48)) 0

/-- A JSON number literal at the head of the input, as mantissa and
decimal exponent (`-?int frac? exp?`, with the JSON leading-zero rule). -/
def parseJNum (l : List Char) : Option (Int × Int × List Char) :=
  let (neg, l1) : Bool × List Char :=
    match l with
    | '-' :: r => (true, r)
    | _ => (false, l)
  let (ip, l2) := l1.span Char.isDigit
  let intOk : Bool :=
    match ip with
    | [] => false
    | ['0'] => true
    | '0' :: _ => false
    | _ => true
  if intOk then
    let (fp, l3) : List Char × List Char :=
      match l2 with
      | '.' :: r => r.span Char.isDigit
      | _ => ([], l2)
    let fracOk : Bool :=
      match l2 with
      | '.' :: _ => !fp.isEmpty
      | _ => true
    if fracOk then
      let expPart : Option (Int × List Char) :=
        match l3 with
        | c :: r =>
          if c == 'e' || c == 'E' then
            let (esgn, r1) : Bool × List Char :=
              match r with
              | '-' :: r2 => (true, r2)
              | '+' :: r2 => (false, r2)
              | _ => (false, r)
            let (ed, r2) := r1.span Char.isDigit
            if ed.isEmpty then none
            else some ((if esgn then -(digitsVal ed : Int) else (digitsVal ed : Int)), r2)
          else some (0, l3)
        | [] => some (0, l3)
      match expPart with
      | none => none
      | some (ex, l4) =>
        let mant : Int := (digitsVal ip : Int) * 10 ^ fp.length + (digitsVal fp : Int)
        some ((if neg then -mant else mant), ex - (fp.length : Int), l4)
    else none
  else none

/-- Parser modes: a single value, array elements (just after `[`), array
elements (a value is required), object members (just after the opening
brace), object members (a member is required). -/
inductive PMode where
  | pv : PMode
  | paF : PMode
  | paM : PMode
  | poF : PMode
  | poM : PMode

/-- Parser results for the three syntactic categories. -/
inductive PRes where
  | rv (v : JVal) (rest : List Char) : PRes
  | ra (vs : List JVal) (rest : List Char) : PRes
  | ro (fs : List (String × JVal)) (rest : List Char) : PRes

/-- Fuelled recursive-descent JSON reader, the model of `JSON.parse`. -/
def parseJ : Nat → PMode → List Char → Option PRes
  | 0, _, _ => none
  | f + 1, PMode.pv, l =>
    match skipJWs l with
    | [] => none
    | c :: rest =>
      if c == 'n' then
        match rest with
        | 'u' :: 'l' :: 'l' :: r => some (PRes.rv JVal.jnull r)
        | _ => none
      else if c == 't' then
        match rest with
        | 'r' :: 'u' :: 'e' :: r => some (PRes.rv (JVal.jbool true) r)
        | _ => none
      else if c == 'f' then
        match rest with
        | 'a' :: 'l' :: 's' :: 'e' :: r => some (PRes.rv (JVal.jbool false) r)
        | _ => none
      else if c == '\"' then
        match parseJStrL rest with
        | some (cs, r) => some (PRes.rv (JVal.jstr (String.mk cs)) r)
        | none => none
      else if c == '[' then
        match parseJ f PMode.paF rest with
        | some (PRes.ra vs r) => some (PRes.rv (JVal.jarr vs) r)
        | _ => none
      else if c == lbrace then
        match parseJ f PMode.poF rest with
        | some (PRes.ro fs r) => some (PRes.rv (JVal.jobj fs) r)
        | _ => none
      else
        match parseJNum (c :: rest) with
        | some (n, e, r) => some (PRes.rv (JVal.jnum n e) r)
        | none => none
  | f + 1, PMode.paF, l =>
    match skipJWs l with
    | c :: rest =>
      if c == ']' then some (PRes.ra [] rest)
      else parseJ f PMode.paM (c :: rest)
    | [] => none
  | f + 1, PMode.paM, l =>
    match parseJ f PMode.pv l with
    | some (PRes.rv v r) =>
      (match skipJWs r with
       | ',' :: r2 =>
         (match parseJ f PMode.paM r2 with
          | some (PRes.ra vs r3) => some (PRes.ra (v :: vs) r3)
          | _ => none)
       | c :: r2 =>
         if c == ']' then some (PRes.ra [v] r2) else none
       | [] => none)
    | _ => none
  | f + 1, PMode.poF, l =>
    match skipJWs l with
    | c :: rest =>
      if c == rbrace then some (PRes.ro [] rest)
      else parseJ f PMode.poM (c :: rest)
    | [] => none
  | f + 1, PMode.poM, l =>
    match skipJWs l with
    | c :: rest =>
      if c == '\"' then
        match parseJStrL rest with
        | some (k, r) =>
          (match skipJWs r with
           | ':' :: r2 =>
             (match parseJ f PMode.pv r2 with
              | some (PRes.rv v r3) =>
                (match skipJWs r3 with
                 | ',' :: r4 =>
                   (match parseJ f PMode.poM r4 with
                    | some (PRes.ro fs r5) => some (PRes.ro ((String.mk k, v) :: fs) r5)
                    | _ => none)
                 | d :: r4 =>
                   if d == rbrace then some (PRes.ro [(String.mk k, v)] r4) else none
                 | [] => none)
              | _ => none)
           | _ => none)
        | none => none
      else none
    | [] => none

/-- Model of `JSON.parse`: a single value with only whitespace after it,
otherwise a syntax error (`none`). -/
def jsonParse (s : String) : Option JVal :=
  match parseJ (4 * (s.toList.length + 1)) PMode.pv s.toList with
  | some (PRes.rv v r) => if (skipJWs r).isEmpty then some v else none
  | _ => none

/-- Key of the display-label field of an extracted entry. -/
def itemKey : String := "item"

/-- Key of the perishability field of an extracted entry. -/
def pdKey : String := "perish_in_days"

/-- JS property access `o[k]` on a parsed JSON value: a field of an object
(the last duplicate wins, as in `JSON.parse`), `undefined` (`none`) on any
other non-null value.  Access on `null` is not modelled here because the
caller (`materializeEntry`) raises the `TypeError` first, as JS does. -/
def getField (v : JVal) (k : String) : Option JVal :=
  match v with
  | JVal.jobj fs => fs.foldl (fun acc p => if p.1 == k then some p.2 else acc) none
  | _ => none

/-- JS truthiness of a parsed JSON value (`NaN` and `undefined` cannot come
out of `JSON.parse`; `undefined` is handled by the caller). -/
def jsTruthy (v : JVal) : Bool :=
  match v with
  | JVal.jnull => false
  | JVal.jbool b => b
  | JVal.jnum n _ => !(n == 0)
  | JVal.jstr s => !(s == "")
  | JVal.jarr _ => true
  | JVal.jobj _ => true

/-- Value of `(it.perish_in_days || 0)`: the field itself when truthy,
the number `0` when the field is absent or falsy. -/
def perishOf (it : JVal) : JVal :=
  match getField it pdKey with
  | some v => if jsTruthy v then v else JVal.jnum 0 0
  | none => JVal.jnum 0 0

/-- JS `Number(string)` on the decimal forms (optional sign, digits,
fraction, exponent, surrounding whitespace; the empty or all-whitespace
string is 0).  `none` is `NaN`.  The exotic `Infinity`/hex/binary string
forms, which never denote a perish-day estimate, are mapped to `NaN`. -/
def jsStrToNumber (s : String) : Option (Int × Int) :=
  let l := jsTrim s.toList
  if l.isEmpty then some (0, 0)
  else
    let (neg, l1) : Bool × List Char :=
      match l with
      | '-' :: r => (true, r)
      | '+' :: r => (false, r)
      | _ => (false, l)
    let (ip, l2) := l1.span Char.isDigit
    let (fp, l3) : List Char × List Char :=
      match l2 with
      | '.' :: r => r.span Char.isDigit
      | _ => ([], l2)
    let fracSeen : Bool :=
      match l2 with
      | '.' :: _ => true
      | _ => false
    if ip.isEmpty && fp.isEmpty then none
    else
      let expPart : Option (Int × List Char) :=
        match l3 with
        | c :: r =>
          if c == 'e' || c == 'E' then
            let (esgn, r1) : Bool × List Char :=
              match r with
              | '-' :: r2 => (true, r2)
              | '+' :: r2 => (false, r2)
              | _ => (false, r)
            let (ed, r2) := r1.span Char.isDigit
            if ed.isEmpty then none
            else some ((if esgn then -(digitsVal ed : Int) else (digitsVal ed : Int)), r2)
          else some (0, l3)
        | [] => some (0, l3)
      match expPart with
      | none => none
      | some (ex, l4) =>
        if l4.isEmpty && (fracSeen || !fp.isEmpty || !ip.isEmpty) then
          let mant : Int := (digitsVal ip : Int) * 10 ^ fp.length + (digitsVal fp : Int)
          some ((if neg then -mant else mant), ex - (fp.length : Int))
        else none

/-- JS `ToNumber` on the values `(it.perish_in_days || 0)` can be, as
mantissa/exponent; `none` is `NaN`.  For arrays and objects the
`ToPrimitive` chain is modelled for the empty array (`0`) and a singleton
numeric array; the remaining exotic cases are mapped to `NaN` and are
exercised by no theorem below. -/
def jsToNumber (v : JVal) : Option (Int × Int) :=
  match v with
  | JVal.jnull => some (0, 0)
  | JVal.jbool b => some ((if b then 1 else 0), 0)
  | JVal.jnum n e => some (n, e)
  | JVal.jstr s => jsStrToNumber s
  | JVal.jarr [] => some (0, 0)
  | JVal.jarr [JVal.jnum n e] => some (n, e)
  | JVal.jarr _ => none
  | JVal.jobj _ => none

/-- Truncation toward zero of `now + n * 86400000 * 10 ^ e`, exactly the
time value `new Date(now.getTime() + days * 24*60*60*1000)` stores (the
ECMAScript `TimeClip` truncates the millisecond value toward zero; `Int`
division `Int.div` truncates toward zero as well). -/
def msTruncAdd (now n e : Int) : Int :=
  if 0 ≤ e then now + n * 86400000 * (10 : Int) ^ e.toNat
  else Int.tdiv (now * (10 : Int) ^ (-e).toNat + n * 86400000) ((10 : Int) ^ (-e).toNat)

/-- A millisecond value representable by a JS `Date`
(`|t| ≤ 8.64e15`; outside it `toISOString` throws a `RangeError`). -/
def validTimeB (t : Int) : Bool :=
  decide (-8640000000000000 ≤ t ∧ t ≤ 8640000000000000)

/-- The error classes a scan can end in (spec §7 taxonomy): the JSON text
did not parse (`SyntaxError`), a JS type error (`.map` on a non-array or
property access on `null`), an invalid `Date` serialization, a rejected
store write. -/
inductive ScanErr where
  | parseError : ScanErr
  | typeError : ScanErr
  | rangeError : ScanErr
  | storeError : ScanErr

/-- A row as assembled for the `fridge` table by ReceiptUpload.jsx lines
114-119: `item_name` is the raw `it.item` property (possibly `undefined`),
both timestamps in ms. -/
structure Row where
  item_name : Option JVal
  added_on : Int
  expires_on : Int

/-- Materialization of a single extracted entry (the body of the
`parsedItems.map` at ReceiptUpload.jsx lines 114-119): property access on
`null` throws; `added_on` serializes `now`; `expires_on` adds
`(it.perish_in_days || 0)` days to the same `now`, throwing on a
non-coercible value (`NaN` time) or an out-of-range time. -/
def materializeEntry (now : Int) (it : JVal) : Except ScanErr Row :=
  match it with
  | JVal.jnull => Except.error ScanErr.typeError
  | _ =>
    if validTimeB now then
      match jsToNumber (perishOf it) with
      | none => Except.error ScanErr.rangeError
      | some (n, e) =>
        if validTimeB (msTruncAdd now n e) then
          Except.ok (Row.mk (getField it itemKey) now (msTruncAdd now n e))
        else Except.error ScanErr.rangeError
    else Except.error ScanErr.rangeError

/-- Left-to-right effectful map: the first entry that throws aborts the
whole batch, exactly as an exception inside `Array.prototype.map` does. -/
def mapExcept (f : α → Except ε β) : List α → Except ε (List β)
  | [] => Except.ok []
  | a :: as =>
    match f a with
    | Except.error e => Except.error e
    | Except.ok b =>
      match mapExcept f as with
      | Except.error e => Except.error e
      | Except.ok bs => Except.ok (b :: bs)

/-- Steps 3-4 of `handleScan` (ReceiptUpload.jsx lines 102-119): clean the
response text, `JSON.parse` it, call `.map` on the result (a `TypeError`
unless it is an array), and materialize every entry with the single `now`
captured once for the batch. -/
def handleScanCore (now : Int) (geminiText : String) : Except ScanErr (List Row) :=
  match jsonParse (cleanLLMText geminiText) with
  | none => Except.error ScanErr.parseError
  | some v =>
    match v with
    | JVal.jarr items => mapExcept (materializeEntry now) items
    | _ => Except.error ScanErr.typeError

/-- The whole scan including the bulk insert and the surrounding
`try`/`catch`: the result is the list of rows actually persisted together
with the error surfaced to the user, if any.  `storeFails` is the store's
verdict on the bulk insert (line 121-122). -/
def handleScan (now : Int) (geminiText : String) (storeFails : Bool) :
    List Row × Option ScanErr :=
  match handleScanCore now geminiText with
  | Except.error e => ([], some e)
  | Except.ok rows =>
    if storeFails then ([], some ScanErr.storeError) else (rows, none)

/-- The maximal run of JS whitespace at the head of the input, and the
rest: the greedy `\s+` of the heading regex. -/
def wsRun : List Char → List Char × List Char
  | [] => ([], [])
  | c :: rest =>
    if jsWs c then
      let p := wsRun rest
      (c :: p.1, p.2)
    else ([], c :: rest)

/-- Is the last character a JS line terminator?  After the regex engine
consumes a `\s+` run, the next position is a line start (for `^` under the
`m` flag) exactly when the last consumed character terminated a line. -/
def lastIsNl (l : List Char) : Bool :=
  match l.getLast? with
  | some c => c == '\n' || c == '\r'
  | none => false

/-- Fuelled model of `textResponse.split(/^##\s+/gm)` (part_002 line 110):
at a line start, `##` followed by at least one whitespace character ends
the current chunk and the match is dropped; every other character is
copied.  `atLS` says whether the current position is a line start; `cur`
is the current chunk, reversed.  The fuel-exhausted case returns the
remaining input unsplit so the result is fuel-stable. -/
def splitRe : Nat → List Char → Bool → List Char → List (List Char)
  | 0, l, _, cur => [cur.reverse ++ l]
  | _ + 1, [], _, cur => [cur.reverse]
  | f + 1, c1 :: rest1, atLS, cur =>
    match rest1 with
    | c2 :: c3 :: rest3 =>
      if atLS && (c1 == '#') && ((c2 == '#') && jsWs c3) then
        cur.reverse :: splitRe f (wsRun (c3 :: rest3)).2 (lastIsNl (wsRun (c3 :: rest3)).1) []
      else splitRe f rest1 (c1 == '\n' || c1 == '\r') (c1 :: cur)
    | _ => splitRe f rest1 (c1 == '\n' || c1 == '\r') (c1 :: cur)

/-- Does the input contain a heading-marker match of `/^##\s+/m` at any
line start?  Mirrors the match condition of `splitRe`. -/
def hasMarker : List Char → Bool → Bool
  | [], _ => false
  | c1 :: rest1, atLS =>
    (atLS && (c1 == '#') &&
      (match rest1 with
       | c2 :: c3 :: _ => (c2 == '#') && jsWs c3
       | _ => false))
    || hasMarker rest1 (c1 == '\n' || c1 == '\r')

/-- String-level heading marker test, from the start of the text. -/
def hasMarkerS (s : String) : Bool := hasMarker s.toList true

/-- The chunks `split(/^##\s+/gm)` produces on a response text. -/
def splitHeadings (s : String) : List String :=
  (splitRe (s.toList.length + 1) s.toList true []).map String.mk

/-- Recipe segmentation (part_002 lines 109-112): split at the heading
markers, drop the chunks that are empty strings (`filter(Boolean)`), and
re-attach `## ` to each trimmed chunk. -/
def segmentsOf (textResponse : String) : List String :=
  ((splitHeadings textResponse).filter (fun s => !(s == ""))).map
    (fun sec => "## " ++ jsTrimS sec)

/-- The recipe response text as the client receives it: a string, or any
non-string value (`data.text` missing and no candidates yields `""`;
a malformed envelope can yield a non-string). -/
inductive JsText where
  | jstr (s : String) : JsText
  | jother : JsText

/-- The defensive check plus segmentation of `callGeminiAPI` in part_002
lines 102-114: an empty or non-string response throws
`"Empty response from AI."`, any other response is segmented. -/
def segmentResponse (t : JsText) : Except String (List String) :=
  match t with
  | JsText.jother => Except.error ("Empty response from AI.")
  | JsText.jstr s =>
    if s == "" then Except.error ("Empty response from AI.")
    else Except.ok (segmentsOf s)

/-- A fridge row as loaded by `fetchItems` (Fridge.jsx lines 43-54:
`select('id, item_name, expires_on')`).  `expires_on` distinguishes a
falsy value (null / missing / empty string), a truthy string that is not
a parseable date (an invalid `Date`, whose comparisons are all false),
and a parseable timestamp. -/
inductive ExpVal where
  | enull : ExpVal
  | einvalid : ExpVal
  | etime (t : Int) : ExpVal
deriving DecidableEq

/-- An item of the currently loaded list in the Fridge component. -/
structure FItem where
  id : Int
  item_name : String
  expires_on : ExpVal
deriving DecidableEq

/-- The filter predicate of `handleClearExpired` (Fridge.jsx lines
104-108): falsy `expires_on` is kept out; otherwise `new Date(expires_on)
<= now`, which is false for an invalid date. -/
def expiredCheck (now : Int) (it : FItem) : Bool :=
  match it.expires_on with
  | ExpVal.enull => false
  | ExpVal.einvalid => false
  | ExpVal.etime t => decide (t ≤ now)

/-- Outcome of clearing expired items: either the user is told nothing
qualified, or exactly these ids are deleted from the store. -/
inductive ClearResult where
  | noop (msg : String) : ClearResult
  | deleteIds (ids : List Int) : ClearResult
deriving DecidableEq

/-- The alert shown when no loaded item is expired. -/
def noExpiredMsg : String := "No expired items to clear."

/-- Model of `handleClearExpired` (Fridge.jsx lines 101-126): compute the
expired ids from the currently loaded list at the evaluation instant;
alert and do nothing if none qualify, otherwise delete exactly those ids. -/
def handleClearExpired (items : List FItem) (now : Int) : ClearResult :=
  let expiredIds := (items.filter (expiredCheck now)).map (fun it => it.id)
  if expiredIds.isEmpty then ClearResult.noop noExpiredMsg
  else ClearResult.deleteIds expiredIds

/-- A stored fridge row with all persisted columns. -/
structure DRow where
  id : Int
  item_name : String
  added_on : Int
  expires_on : Int
deriving DecidableEq

/-- The store-side effect of `handleSaveEdit` (Fridge.jsx lines 146-149):
`update({ expires_on: newValue }).eq('id', targetId)` sets the
`expires_on` column of every row whose id matches and touches nothing
else. -/
def updateExpiry (db : List DRow) (targetId : Int) (newExpiresOn : Int) : List DRow :=
  db.map (fun r => if r.id == targetId then DRow.mk r.id r.item_name r.added_on newExpiresOn else r)

/-- A row as inserted by the manual add (no id; the store assigns it). -/
structure Payload where
  item_name : String
  added_on : Int
  expires_on : Int

/-- The component state `handleAddItem` reads and writes: the two input
fields and the store contents. -/
structure AddState where
  newItem : String
  expiryDate : String
  db : List Payload

/-- The alert shown when an input field is empty. -/
def fillMsg : String := "Fill both fields!"

/-- Model of `handleAddItem` (Fridge.jsx lines 60-81): an empty name or
empty expiry date alerts and changes nothing; a failed insert changes
nothing (the error goes to the console, not the user); a successful
insert appends the payload and clears both input fields.  `now` is the
insertion timestamp and `expiresVal` the parsed expiry date;
`insertFails` is the store's verdict. -/
def handleAddItem (st : AddState) (now expiresVal : Int) (insertFails : Bool) :
    AddState × Option String :=
  if st.newItem == "" || st.expiryDate == "" then (st, some fillMsg)
  else if insertFails then (st, none)
  else (AddState.mk "" "" (st.db ++ [Payload.mk st.newItem now expiresVal]), none)

/-! ## Helper lemmas -/

theorem strMk_toList (s : String) : String.mk s.toList = s := rfl

theorem strToList_app (a b : String) : (a ++ b).toList = a.toList ++ b.toList := by
  cases a
  cases b
  rfl

theorem mapExcept_mem {α β ε : Type} (f : α → Except ε β) :
    ∀ (xs : List α) (ys : List β), mapExcept f xs = Except.ok ys →
      ∀ y ∈ ys, ∃ x ∈ xs, f x = Except.ok y := by
  intro xs
  induction xs with
  | nil =>
    intro ys h y hy
    simp only [mapExcept, Except.ok.injEq] at h
    subst h
    simp at hy
  | cons a as ih =>
    intro ys h y hy
    simp only [mapExcept] at h
    cases hfa : f a with
    | error e => rw [hfa] at h; simp at h
    | ok b =>
      rw [hfa] at h
      cases hm : mapExcept f as with
      | error e => rw [hm] at h; simp at h
      | ok bs =>
        rw [hm] at h
        simp only [Except.ok.injEq] at h
        subst h
        rcases List.mem_cons.mp hy with hy | hy
        · exact ⟨a, List.mem_cons_self a as, by rw [hfa, hy]⟩
        · obtain ⟨x, hx, hfx⟩ := ih bs hm y hy
          exact ⟨x, List.mem_cons_of_mem a hx, hfx⟩

theorem materializeEntry_ok_shape (now : Int) (it : JVal) (r : Row)
    (h : materializeEntry now it = Except.ok r) :
    validTimeB now = true ∧
    ∃ n e, jsToNumber (perishOf it) = some (n, e) ∧
      r = Row.mk (getField it itemKey) now (msTruncAdd now n e) := by
  cases it
  case jnull => simp [materializeEntry] at h
  all_goals
    simp only [materializeEntry] at h
  all_goals
    split at h
  all_goals
    first
    | simp at h
    | · rename_i hv
        split at h
        case h_1 => simp at h
        case h_2 n e heq =>
          split at h
          case isFalse => simp at h
          case isTrue ht =>
            simp only [Except.ok.injEq] at h
            exact ⟨hv, n, e, heq, h.symm⟩

theorem materializeEntry_added (now : Int) (it : JVal) (r : Row)
    (h : materializeEntry now it = Except.ok r) : r.added_on = now := by
  obtain ⟨-, n, e, -, hr⟩ := materializeEntry_ok_shape now it r h
  rw [hr]

theorem handleScan_ok (now : Int) (t : String) (sf : Bool) (rows : List Row)
    (h : handleScan now t sf = (rows, none)) :
    handleScanCore now t = Except.ok rows := by
  unfold handleScan at h
  split at h
  case h_1 e heq => simp at h
  case h_2 rs heq =>
    split at h
    case isTrue => simp at h
    case isFalse =>
      simp only [Prod.mk.injEq] at h
      rw [heq, h.1]

theorem handleScanCore_ok (now : Int) (t : String) (rows : List Row)
    (h : handleScanCore now t = Except.ok rows) :
    ∃ items, jsonParse (cleanLLMText t) = some (JVal.jarr items) ∧
      mapExcept (materializeEntry now) items = Except.ok rows := by
  unfold handleScanCore at h
  cases hj : jsonParse (cleanLLMText t) with
  | none => rw [hj] at h; simp at h
  | some v =>
    rw [hj] at h
    cases v <;> simp only at h <;> first
      | (exact absurd h (by simp))
      | (exact ⟨_, rfl, h⟩)

theorem perishOf_num (it : JVal) (d : Int)
    (h : getField it pdKey = some (JVal.jnum d 0)) :
    perishOf it = JVal.jnum d 0 := by
  unfold perishOf
  rw [h]
  by_cases hd : d = 0
  · subst hd; simp
  · simp [jsTruthy, hd]

theorem perishOf_falsy (it : JVal)
    (h : getField it pdKey = none ∨
         ∃ v, getField it pdKey = some v ∧ jsTruthy v = false) :
    perishOf it = JVal.jnum 0 0 := by
  unfold perishOf
  rcases h with h | ⟨v, hv, htr⟩
  · rw [h]
  · rw [hv]
    simp [htr]

theorem msTruncAdd_int (now d : Int) : msTruncAdd now d 0 = now + d * 86400000 := by
  simp [msTruncAdd]

/-! ## C1 -/

/-- C1: for every extracted entry whose `perish_in_days` is a non-negative
integer `d`, the materialized record's `expires_on` is its `added_on` plus
exactly `d * 24*60*60*1000` ms, and every row of a successful scan batch
carries the single `now` captured once for the whole batch as `added_on`. -/
theorem scan_expiry_offset_correct :
    (∀ (now : Int) (it : JVal) (d : Int) (r : Row), 0 ≤ d →
      getField it pdKey = some (JVal.jnum d 0) →
      materializeEntry now it = Except.ok r →
      r.added_on = now ∧ r.expires_on = r.added_on + d * 86400000) ∧
    (∀ (now : Int) (t : String) (sf : Bool) (rows : List Row),
      handleScan now t sf = (rows, none) → ∀ r ∈ rows, r.added_on = now) := by
  constructor
  · intro now it d r _ hpd hok
    obtain ⟨-, n, e, hnum, hr⟩ := materializeEntry_ok_shape now it r hok
    rw [perishOf_num it d hpd] at hnum
    simp only [jsToNumber, Option.some.injEq, Prod.mk.injEq] at hnum
    obtain ⟨rfl, rfl⟩ := hnum
    rw [hr]
    exact ⟨rfl, by simp [msTruncAdd_int]⟩
  · intro now t sf rows h r hr
    obtain ⟨items, -, hmap⟩ := handleScanCore_ok now t rows (handleScan_ok now t sf rows h)
    obtain ⟨x, -, hfx⟩ := mapExcept_mem (materializeEntry now) items rows hmap r hr
    exact materializeEntry_added now x r hfx

/-- C1 witness: an entry with `perish_in_days = 5` materialized at `now = 0`. -/
theorem scan_expiry_offset_correct_witness :
    (Row.mk (some (JVal.jstr ("Bread"))) 0 432000000).added_on = 0 ∧
    (Row.mk (some (JVal.jstr ("Bread"))) 0 432000000).expires_on =
      (Row.mk (some (JVal.jstr ("Bread"))) 0 432000000).added_on + 5 * 86400000 :=
  scan_expiry_offset_correct.1 0
    (JVal.jobj [(itemKey, JVal.jstr ("Bread")), (pdKey, JVal.jnum 5 0)]) 5
    (Row.mk (some (JVal.jstr ("Bread"))) 0 432000000)
    (by decide) rfl rfl

/-! ## C2 -/

/-- C2 (counterexample): an entry whose `perish_in_days` is the non-numeric
string `"abc"` does not materialize with a zero offset — the coercion gives
`NaN`, `toISOString` throws, and the entry fails, contradicting the claim
that materialization still succeeds for such entries. -/
theorem perish_nonnumeric_fails_counterexample :
    getField (JVal.jobj [(itemKey, JVal.jstr ("Bread")), (pdKey, JVal.jstr ("abc"))]) pdKey =
      some (JVal.jstr ("abc")) ∧
    materializeEntry 0 (JVal.jobj [(itemKey, JVal.jstr ("Bread")), (pdKey, JVal.jstr ("abc"))]) =
      Except.error ScanErr.rangeError := ⟨rfl, rfl⟩

/-- C2 (amended): for every extracted entry (a non-null JSON value) whose
`perish_in_days` field is missing or falsy (null, false, 0, or the empty
string), the materialized record's `expires_on` equals its `added_on`
(zero-day offset) and materialization succeeds for that entry, provided the
batch timestamp is a representable time. -/
theorem perish_falsy_zero_offset :
    ∀ (now : Int) (it : JVal), it ≠ JVal.jnull → validTimeB now = true →
      (getField it pdKey = none ∨
        ∃ v, getField it pdKey = some v ∧ jsTruthy v = false) →
      materializeEntry now it = Except.ok (Row.mk (getField it itemKey) now now) := by
  intro now it hnull hvt hfal
  have hper : perishOf it = JVal.jnum 0 0 := perishOf_falsy it hfal
  have hms : msTruncAdd now 0 0 = now := by rw [msTruncAdd_int]; ring
  cases it with
  | jnull => exact absurd rfl hnull
  | jbool b => simp only [materializeEntry]; rw [if_pos hvt, hper]; simp [jsToNumber, hms, hvt]
  | jnum n e => simp only [materializeEntry]; rw [if_pos hvt, hper]; simp [jsToNumber, hms, hvt]
  | jstr s => simp only [materializeEntry]; rw [if_pos hvt, hper]; simp [jsToNumber, hms, hvt]
  | jarr es => simp only [materializeEntry]; rw [if_pos hvt, hper]; simp [jsToNumber, hms, hvt]
  | jobj fs => simp only [materializeEntry]; rw [if_pos hvt, hper]; simp [jsToNumber, hms, hvt]

/-- C2 (amended) witness: an entry with no `perish_in_days` field at all. -/
theorem perish_falsy_zero_offset_witness :
    materializeEntry 0 (JVal.jobj [(itemKey, JVal.jstr ("Milk"))]) =
      Except.ok (Row.mk (getField (JVal.jobj [(itemKey, JVal.jstr ("Milk"))]) itemKey) 0 0) :=
  perish_falsy_zero_offset 0 (JVal.jobj [(itemKey, JVal.jstr ("Milk"))])
    (by intro h; cases h) rfl (Or.inl rfl)

/-! ## C3 -/

/-- C3 (counterexample): on the spec's own input the segmentation does not
return only the two heading segments — the preamble is not discarded. -/
theorem segmentation_preamble_counterexample :
    segmentsOf ("preamble\n## A\ntext1\n## B\ntext2") ≠ ["## A\ntext1", "## B\ntext2"] := by
  decide

/-- C3 (amended): segmentation of `"preamble\n## A\ntext1\n## B\ntext2"`
yields exactly the three segments `"## preamble"`, `"## A\ntext1"`,
`"## B\ntext2"` in order: only an empty chunk before the first heading is
dropped; a nonempty preamble is kept and, like every chunk, gets the
heading marker re-attached. -/
theorem segmentation_preamble_kept :
    segmentsOf ("preamble\n## A\ntext1\n## B\ntext2") =
      ["## preamble", "## A\ntext1", "## B\ntext2"] := rfl

/-! ## C7 -/

theorem expiredCheck_iff (now : Int) (it : FItem) :
    expiredCheck now it = true ↔ ∃ u, it.expires_on = ExpVal.etime u ∧ u ≤ now := by
  cases h : it.expires_on <;> simp [expiredCheck, h]

/-- C7: clear-expired is a function of the loaded list and the evaluation
instant; on the spec's example only id 1 is deleted; in general exactly the
ids of loaded items whose parsed `expires_on` is `≤ now` are deleted; and
when nothing qualifies the operation is a reported no-op. -/
theorem clear_expired_spec :
    (∀ (t : Int),
      handleClearExpired
        [FItem.mk 1 ("a") (ExpVal.etime (t - 1)), FItem.mk 2 ("b") (ExpVal.etime (t + 100))] t =
        ClearResult.deleteIds [1]) ∧
    (∀ (items : List FItem) (now : Int) (ids : List Int),
      handleClearExpired items now = ClearResult.deleteIds ids →
      ∀ i : Int, i ∈ ids ↔
        ∃ it ∈ items, it.id = i ∧ ∃ u, it.expires_on = ExpVal.etime u ∧ u ≤ now) ∧
    (∀ (items : List FItem) (now : Int),
      (∀ it ∈ items, expiredCheck now it = false) →
      handleClearExpired items now = ClearResult.noop noExpiredMsg) := by
  refine ⟨?_, ?_, ?_⟩
  · intro t
    have h1 : expiredCheck t (FItem.mk 1 ("a") (ExpVal.etime (t - 1))) = true := by
      simp [expiredCheck]
    have h2 : expiredCheck t (FItem.mk 2 ("b") (ExpVal.etime (t + 100))) = false := by
      simp [expiredCheck]
    simp [handleClearExpired, List.filter, h1, h2]
  · intro items now ids h i
    unfold handleClearExpired at h
    by_cases he : ((items.filter (expiredCheck now)).map (fun it => it.id)).isEmpty
    · rw [if_pos he] at h; simp at h
    · rw [if_neg he] at h
      simp only [ClearResult.deleteIds.injEq] at h
      subst h
      constructor
      · intro hi
        obtain ⟨it, hit, hid⟩ := List.mem_map.mp hi
        obtain ⟨hmem, hchk⟩ := List.mem_filter.mp hit
        exact ⟨it, hmem, hid, (expiredCheck_iff now it).mp hchk⟩
      · rintro ⟨it, hmem, hid, hex⟩
        exact List.mem_map.mpr
          ⟨it, List.mem_filter.mpr ⟨hmem, (expiredCheck_iff now it).mpr hex⟩, hid⟩
  · intro items now hall
    have hf : items.filter (expiredCheck now) = [] := by
      rw [List.filter_eq_nil_iff]
      intro a ha
      simp [hall a ha]
    simp [handleClearExpired, hf]

/-- C7 witness: the spec's example at `t = 0`, and a no-op report on a list
with nothing expired. -/
theorem clear_expired_spec_witness :
    handleClearExpired
      [FItem.mk 1 ("a") (ExpVal.etime (0 - 1)), FItem.mk 2 ("b") (ExpVal.etime (0 + 100))] 0 =
      ClearResult.deleteIds [1] ∧
    handleClearExpired [FItem.mk 3 ("c") (ExpVal.etime 50)] 0 =
      ClearResult.noop noExpiredMsg :=
  ⟨clear_expired_spec.1 0, clear_expired_spec.2.2 [FItem.mk 3 ("c") (ExpVal.etime 50)] 0 (by decide)⟩

/-! ## C8 -/

/-- C8: the update-expiry store operation replaces only the matching row's
`expires_on`; its `added_on`, `item_name` and `id` are untouched, and every
row whose id differs is left entirely unchanged. -/
theorem update_expiry_frame :
    ∀ (db : List DRow) (tid e : Int),
      (updateExpiry db tid e).length = db.length ∧
      ∀ (i : Nat) (hi : i < db.length) (ho : i < (updateExpiry db tid e).length),
        ((updateExpiry db tid e).get ⟨i, ho⟩).item_name = (db.get ⟨i, hi⟩).item_name ∧
        ((updateExpiry db tid e).get ⟨i, ho⟩).added_on = (db.get ⟨i, hi⟩).added_on ∧
        ((updateExpiry db tid e).get ⟨i, ho⟩).id = (db.get ⟨i, hi⟩).id ∧
        ((db.get ⟨i, hi⟩).id ≠ tid → (updateExpiry db tid e).get ⟨i, ho⟩ = db.get ⟨i, hi⟩) ∧
        ((db.get ⟨i, hi⟩).id = tid → ((updateExpiry db tid e).get ⟨i, ho⟩).expires_on = e) := by
  intro db tid e
  refine ⟨by simp [updateExpiry], ?_⟩
  intro i hi ho
  have hmap : (updateExpiry db tid e).get ⟨i, ho⟩ =
      (fun r => if r.id == tid then DRow.mk r.id r.item_name r.added_on e else r)
        (db.get ⟨i, hi⟩) := by
    simp [updateExpiry]
  rw [hmap]
  simp only [List.get_eq_getElem]
  by_cases hid : db[i].id = tid
  · simp [hid]
  · simp [hid]

/-- C8 witness: a two-row store where only the targeted row's expiry moves. -/
theorem update_expiry_frame_witness :
    ((updateExpiry [DRow.mk 1 ("a") 10 20, DRow.mk 2 ("b") 11 21] 1 99).get
        ⟨1, by decide⟩) = DRow.mk 2 ("b") 11 21 ∧
    ((updateExpiry [DRow.mk 1 ("a") 10 20, DRow.mk 2 ("b") 11 21] 1 99).get
        ⟨0, by decide⟩).expires_on = 99 :=
  ⟨((update_expiry_frame [DRow.mk 1 ("a") 10 20, DRow.mk 2 ("b") 11 21] 1 99).2 1
      (by decide) (by decide)).2.2.2.1 (by decide),
   ((update_expiry_frame [DRow.mk 1 ("a") 10 20, DRow.mk 2 ("b") 11 21] 1 99).2 0
      (by decide) (by decide)).2.2.2.2 rfl⟩

/-! ## C9 -/

/-- C9: an item whose `expires_on` is null/missing/falsy is never among the
ids deleted by clear-expired (with the store-guaranteed uniqueness of ids),
at any evaluation time. -/
theorem null_expiry_not_deleted :
    ∀ (items : List FItem) (now : Int) (ids : List Int),
      (items.map (fun it => it.id)).Nodup →
      handleClearExpired items now = ClearResult.deleteIds ids →
      ∀ it ∈ items, it.expires_on = ExpVal.enull → it.id ∉ ids := by
  intro items now ids hnd h it hmem hexp hin
  unfold handleClearExpired at h
  by_cases he : ((items.filter (expiredCheck now)).map (fun it => it.id)).isEmpty
  · rw [if_pos he] at h; simp at h
  · rw [if_neg he] at h
    simp only [ClearResult.deleteIds.injEq] at h
    subst h
    obtain ⟨it', hit', hid⟩ := List.mem_map.mp hin
    obtain ⟨hmem', hchk⟩ := List.mem_filter.mp hit'
    have : it' = it := List.inj_on_of_nodup_map hnd hmem' hmem hid
    subst this
    rw [expiredCheck_iff] at hchk
    obtain ⟨u, hu, -⟩ := hchk
    rw [hexp] at hu
    cases hu

/-- C9 witness: a null-expiry item next to a genuinely expired one. -/
theorem null_expiry_not_deleted_witness :
    (FItem.mk 1 ("a") ExpVal.enull).id ∉ ([2] : List Int) :=
  null_expiry_not_deleted
    [FItem.mk 1 ("a") ExpVal.enull, FItem.mk 2 ("b") (ExpVal.etime (-1))] 0 [2]
    (by decide) (by decide) (FItem.mk 1 ("a") ExpVal.enull) (by simp) rfl

/-! ## C10 -/

/-- C10: the manual add inserts nothing and leaves the state (store and both
input fields) unchanged when either field is empty, alerting the user; a
failed insert also leaves everything unchanged; the fields are cleared
exactly on a successful insert, which appends the one payload row. -/
theorem add_item_guard :
    ∀ (st : AddState) (now ev : Int) (fails : Bool),
      ((st.newItem = "" ∨ st.expiryDate = "") →
        handleAddItem st now ev fails = (st, some fillMsg)) ∧
      (st.newItem ≠ "" → st.expiryDate ≠ "" → fails = true →
        handleAddItem st now ev fails = (st, none)) ∧
      (st.newItem ≠ "" → st.expiryDate ≠ "" → fails = false →
        handleAddItem st now ev fails =
          (AddState.mk "" "" (st.db ++ [Payload.mk st.newItem now ev]), none)) := by
  intro st now ev fails
  refine ⟨?_, ?_, ?_⟩
  · intro h
    have : (st.newItem == "" || st.expiryDate == "") = true := by
      rcases h with h | h <;> simp [h]
    simp [handleAddItem, this]
  · intro h1 h2 h3
    have : (st.newItem == "" || st.expiryDate == "") = false := by
      simp [h1, h2]
    simp [handleAddItem, this, h3]
  · intro h1 h2 h3
    have : (st.newItem == "" || st.expiryDate == "") = false := by
      simp [h1, h2]
    simp [handleAddItem, this, h3]

/-- C10 witness: an empty expiry field alerts and leaves the state alone. -/
theorem add_item_guard_witness :
    handleAddItem (AddState.mk ("tofu") "" []) 5 6 false =
      (AddState.mk ("tofu") "" [], some fillMsg) :=
  (add_item_guard (AddState.mk ("tofu") "" []) 5 6 false).1 (Or.inr rfl)

/-! ## C5 -/

/-- C5 (counterexample): the response text `"[42]"` does not have the
expected array-of-label/perish-day shape, yet the scan does not fail —
one row (with an undefined name and zero offset) is materialized and
inserted, so there is best-effort coercion rather than a whole-scan parse
error. -/
theorem array_shape_coercion_counterexample :
    (handleScan 0 ("[42]") false).1.length = 1 ∧
    (handleScan 0 ("[42]") false).2 = none ∧
    handleScan 0 ("[42]") false = ([Row.mk none 0 0], none) :=
  ⟨rfl, rfl, rfl⟩

/-- C5 (amended): a response whose cleaned text is not valid JSON, or
parses to a non-array value, fails the whole scan with a parse or type
error and nothing is materialized or inserted; an entry that throws during
materialization likewise fails the whole scan with nothing inserted.  A
text parsing to any JSON array, however, is materialized entry by entry
with JS coercion of each entry's fields rather than rejected. -/
theorem scan_failure_no_insert :
    ∀ (now : Int) (t : String) (sf : Bool),
      (jsonParse (cleanLLMText t) = none →
        handleScan now t sf = ([], some ScanErr.parseError)) ∧
      (∀ v, jsonParse (cleanLLMText t) = some v → (∀ items, v ≠ JVal.jarr items) →
        handleScan now t sf = ([], some ScanErr.typeError)) ∧
      (∀ items, jsonParse (cleanLLMText t) = some (JVal.jarr items) →
        handleScanCore now t = mapExcept (materializeEntry now) items) ∧
      (∀ e, handleScanCore now t = Except.error e →
        handleScan now t sf = ([], some e)) := by
  intro now t sf
  refine ⟨?_, ?_, ?_, ?_⟩
  · intro h
    unfold handleScan handleScanCore
    rw [h]
  · intro v hv hnotarr
    unfold handleScan handleScanCore
    rw [hv]
    cases v with
    | jarr items => exact absurd rfl (hnotarr items)
    | jnull => rfl
    | jbool b => rfl
    | jnum n e => rfl
    | jstr s => rfl
    | jobj fs => rfl
  · intro items h
    unfold handleScanCore
    rw [h]
  · intro e h
    unfold handleScan
    rw [h]

/-- C5 (amended) witness: a non-JSON response fails the scan with a parse
error and inserts nothing. -/
theorem scan_failure_no_insert_witness :
    handleScan 0 ("oops not json") false = ([], some ScanErr.parseError) :=
  (scan_failure_no_insert 0 ("oops not json") false).1 rfl

/-! ## C4 -/

theorem splitRe_no_marker :
    ∀ (f : Nat) (l : List Char) (atLS : Bool) (cur : List Char),
      hasMarker l atLS = false → splitRe f l atLS cur = [cur.reverse ++ l] := by
  intro f
  induction f with
  | zero => intro l atLS cur _; rfl
  | succ f ih =>
    intro l atLS cur h
    cases l with
    | nil => simp [splitRe]
    | cons c1 rest1 =>
      cases rest1 with
      | nil =>
        show splitRe f [] (c1 == '\n' || c1 == '\r') (c1 :: cur) = _
        rw [ih [] _ (c1 :: cur) rfl]
        simp
      | cons c2 rest2 =>
        cases rest2 with
        | nil =>
          rw [hasMarker, Bool.or_eq_false_iff] at h
          show splitRe f [c2] (c1 == '\n' || c1 == '\r') (c1 :: cur) = _
          rw [ih [c2] _ (c1 :: cur) h.2]
          simp
          intro a b r hh
          simp at hh
        | cons c3 rest3 =>
          rw [hasMarker, Bool.or_eq_false_iff] at h
          obtain ⟨hcond, hrest⟩ := h
          have hcond' : (atLS && (c1 == '#') && ((c2 == '#') && jsWs c3)) = false := hcond
          simp only [splitRe, hcond', Bool.false_eq_true, if_false]
          rw [ih (c2 :: c3 :: rest3) _ (c1 :: cur) hrest]
          simp

theorem splitHeadings_no_marker (s : String) (h : hasMarkerS s = false) :
    splitHeadings s = [s] := by
  unfold splitHeadings
  rw [splitRe_no_marker _ _ _ _ h]
  simp [strMk_toList]

/-- C4 (counterexample): a nonempty response with zero heading markers does
not fail the generation — it yields a single segment consisting of the
heading marker glued onto the whole text. -/
theorem no_heading_single_block_counterexample :
    hasMarkerS ("no headings here") = false ∧
    segmentResponse (JsText.jstr ("no headings here")) =
      Except.ok ["## no headings here"] := ⟨rfl, rfl⟩

/-- C4 (amended): an empty or non-string response text fails the whole
generation with the `"Empty response from AI."` error and no segments are
produced; a nonempty response with zero top-level heading markers instead
yields exactly one segment, the heading marker prepended to the trimmed
text. -/
theorem empty_generation_behavior :
    (segmentResponse JsText.jother = Except.error ("Empty response from AI.")) ∧
    (segmentResponse (JsText.jstr "") = Except.error ("Empty response from AI.")) ∧
    (∀ s : String, s ≠ "" → hasMarkerS s = false →
      segmentResponse (JsText.jstr s) = Except.ok ["## " ++ jsTrimS s]) := by
  refine ⟨rfl, rfl, ?_⟩
  intro s hne hmk
  have hbeq : (s == "") = false := by
    simpa using hne
  simp only [segmentResponse, hbeq, Bool.false_eq_true, if_false]
  unfold segmentsOf
  rw [splitHeadings_no_marker s hmk]
  simp [List.filter, hbeq]

/-- C4 (amended) witness: a plain nonempty text becomes one marker-prefixed
segment. -/
theorem empty_generation_behavior_witness :
    segmentResponse (JsText.jstr ("hello")) = Except.ok ["## " ++ jsTrimS ("hello")] :=
  empty_generation_behavior.2.2 ("hello") (by decide) rfl

/-! ## C6: algebra of the fence-stripping cleanup -/

theorem leadMatch_length :
    ∀ (pat l : List Char), leadMatch pat l = true → pat.length ≤ l.length := by
  intro pat
  induction pat with
  | nil => intro l _; simp
  | cons p ps ih =>
    intro l h
    cases l with
    | nil => simp [leadMatch] at h
    | cons c cs =>
      simp only [leadMatch, Bool.and_eq_true] at h
      have := ih cs h.2
      simp only [List.length_cons]
      omega

theorem leadMatch_self_app : ∀ (pat s : List Char), leadMatch pat (pat ++ s) = true := by
  intro pat
  induction pat with
  | nil => intro s; rfl
  | cons p ps ih => intro s; simp [leadMatch, ih]

theorem leadMatch_stop (pat : List Char) (hpw : wsFree pat) (d : Char) (hd : jsWs d = true) :
    ∀ (u v : List Char), leadMatch pat (u ++ d :: v) = leadMatch pat u := by
  induction pat with
  | nil => intro u v; rfl
  | cons p ps ih =>
    intro u v
    cases u with
    | nil =>
      have hp : jsWs p = false := hpw p (List.mem_cons_self p ps)
      have hpd : (p == d) = false := by
        rw [beq_eq_false_iff_ne]
        intro hpd
        rw [hpd, hd] at hp
        cases hp
      simp [leadMatch, hpd]
    | cons c u' =>
      have hps : wsFree ps := fun x hx => hpw x (List.mem_cons_of_mem p hx)
      show ((p == c) && leadMatch ps (u' ++ d :: v)) = ((p == c) && leadMatch ps u')
      rw [ih hps u' v]

theorem replAllF_irrel (pat : List Char) (hp : pat ≠ []) :
    ∀ (f g : Nat) (l : List Char), l.length ≤ f → l.length ≤ g →
      replAllF pat f l = replAllF pat g l := by
  intro f
  induction f with
  | zero =>
    intro g l hf _
    have hl : l = [] := List.eq_nil_of_length_eq_zero (Nat.le_zero.mp hf)
    subst hl
    cases g <;> rfl
  | succ f ih =>
    intro g l hf hg
    cases l with
    | nil => cases g <;> rfl
    | cons c rest =>
      have hg1 : 1 ≤ g := le_trans (by simp) hg
      obtain ⟨g', rfl⟩ : ∃ g', g = g' + 1 := ⟨g - 1, by omega⟩
      show (if leadMatch pat (c :: rest) then replAllF pat f ((c :: rest).drop pat.length)
            else c :: replAllF pat f rest) =
          (if leadMatch pat (c :: rest) then replAllF pat g' ((c :: rest).drop pat.length)
            else c :: replAllF pat g' rest)
      have hplen : 1 ≤ pat.length := by
        cases pat with
        | nil => exact absurd rfl hp
        | cons _ _ => simp
      by_cases hm : leadMatch pat (c :: rest) = true
      · rw [if_pos hm, if_pos hm]
        apply ih
        · simp only [List.length_drop, List.length_cons]
          simp only [List.length_cons] at hf
          omega
        · simp only [List.length_drop, List.length_cons]
          simp only [List.length_cons] at hg
          omega
      · rw [if_neg hm, if_neg hm]
        have : rest.length ≤ f := by simp only [List.length_cons] at hf; omega
        have : rest.length ≤ g' := by simp only [List.length_cons] at hg; omega
        rw [ih g' rest (by simp only [List.length_cons] at hf; omega) this]

theorem replAll_cons (pat : List Char) (hp : pat ≠ []) (c : Char) (rest : List Char) :
    replAll pat (c :: rest) =
      if leadMatch pat (c :: rest) then replAll pat ((c :: rest).drop pat.length)
      else c :: replAll pat rest := by
  have hplen : 1 ≤ pat.length := by
    cases pat with
    | nil => exact absurd rfl hp
    | cons _ _ => simp
  show (if leadMatch pat (c :: rest) then replAllF pat rest.length ((c :: rest).drop pat.length)
        else c :: replAllF pat rest.length rest) = _
  by_cases hm : leadMatch pat (c :: rest) = true
  · rw [if_pos hm, if_pos hm]
    apply replAllF_irrel pat hp
    · simp only [List.length_drop, List.length_cons]; omega
    · simp
  · rw [if_neg hm, if_neg hm]
    rfl

theorem replAll_pat_head (pat : List Char) (hp : pat ≠ []) (s : List Char) :
    replAll pat (pat ++ s) = replAll pat s := by
  cases pat with
  | nil => exact absurd rfl hp
  | cons p ps =>
    rw [show (p :: ps) ++ s = p :: (ps ++ s) from rfl, replAll_cons _ hp]
    rw [show p :: (ps ++ s) = (p :: ps) ++ s from rfl]
    rw [leadMatch_self_app]
    rw [if_pos rfl]
    rw [List.drop_left' rfl]

theorem replAll_ws_left (pat : List Char) (hp : pat ≠ []) (hpw : wsFree pat) :
    ∀ (w l : List Char), allWs w → replAll pat (w ++ l) = w ++ replAll pat l := by
  intro w
  induction w with
  | nil => intro l _; simp
  | cons d w' ih =>
    intro l hw
    have hd : jsWs d = true := hw d (List.mem_cons_self d w')
    have hw' : allWs w' := fun x hx => hw x (List.mem_cons_of_mem d hx)
    rw [show (d :: w') ++ l = d :: (w' ++ l) from rfl, replAll_cons _ hp]
    have hm : leadMatch pat (d :: (w' ++ l)) = false := by
      cases pat with
      | nil => exact absurd rfl hp
      | cons p ps =>
        have hpns : jsWs p = false := hpw p (List.mem_cons_self p ps)
        have : (p == d) = false := by
          rw [beq_eq_false_iff_ne]
          intro hpd
          rw [hpd, hd] at hpns
          cases hpns
        simp [leadMatch, this]
    rw [hm]
    simp only [Bool.false_eq_true, if_false]
    rw [ih l hw']
    rfl

theorem replAll_nil (pat : List Char) : replAll pat [] = [] := rfl

theorem replAll_allws (pat : List Char) (hp : pat ≠ []) (hpw : wsFree pat)
    (w : List Char) (hw : allWs w) : replAll pat w = w := by
  have := replAll_ws_left pat hp hpw w [] hw
  simpa [replAll_nil] using this

theorem replAll_sep (pat : List Char) (hp : pat ≠ []) (hpw : wsFree pat)
    (d : Char) (hd : jsWs d = true) :
    ∀ (n : Nat) (u : List Char), u.length ≤ n → ∀ (v : List Char),
      replAll pat (u ++ d :: v) = replAll pat u ++ d :: replAll pat v := by
  have hplen : 1 ≤ pat.length := by
    cases pat with
    | nil => exact absurd rfl hp
    | cons _ _ => simp
  have base : ∀ v, replAll pat (d :: v) = d :: replAll pat v := by
    intro v
    have := replAll_ws_left pat hp hpw [d] v (by intro c hc; simp at hc; subst hc; exact hd)
    simpa using this
  intro n
  induction n with
  | zero =>
    intro u hu v
    have hunil : u = [] := List.eq_nil_of_length_eq_zero (Nat.le_zero.mp hu)
    subst hunil
    simpa using base v
  | succ n ih =>
    intro u hu v
    cases u with
    | nil => simpa using base v
    | cons c u' =>
      rw [show (c :: u') ++ d :: v = c :: (u' ++ d :: v) from rfl, replAll_cons _ hp,
        replAll_cons _ hp]
      have hmEq : leadMatch pat (c :: (u' ++ d :: v)) = leadMatch pat (c :: u') := by
        have := leadMatch_stop pat hpw d hd (c :: u') v
        simpa using this
      rw [hmEq]
      by_cases hm : leadMatch pat (c :: u') = true
      · rw [if_pos hm, if_pos hm]
        have hlen : pat.length ≤ (c :: u').length := leadMatch_length pat (c :: u') hm
        have hdrop : (c :: (u' ++ d :: v)).drop pat.length =
            ((c :: u').drop pat.length) ++ d :: v := by
          rw [show c :: (u' ++ d :: v) = (c :: u') ++ (d :: v) from rfl]
          exact List.drop_append_of_le_length hlen
        rw [hdrop]
        apply ih
        simp only [List.length_drop, List.length_cons]
        simp only [List.length_cons] at hu
        omega
      · rw [if_neg hm, if_neg hm]
        have hu' : u'.length ≤ n := by simp only [List.length_cons] at hu; omega
        rw [ih u' hu' v]
        rfl

theorem replAll_ws_right (pat : List Char) (hp : pat ≠ []) (hpw : wsFree pat)
    (u w : List Char) (hw : allWs w) : replAll pat (u ++ w) = replAll pat u ++ w := by
  cases w with
  | nil => simp
  | cons d w' =>
    have hd : jsWs d = true := hw d (List.mem_cons_self d w')
    have hw' : allWs w' := fun x hx => hw x (List.mem_cons_of_mem d hx)
    rw [replAll_sep pat hp hpw d hd u.length u (le_refl _) w',
      replAll_allws pat hp hpw w' hw']

theorem dropWs_ws_left (w : List Char) (hw : allWs w) (l : List Char) :
    dropWs (w ++ l) = dropWs l := by
  induction w with
  | nil => rfl
  | cons d w' ih =>
    have hd : jsWs d = true := hw d (List.mem_cons_self d w')
    have hw' : allWs w' := fun x hx => hw x (List.mem_cons_of_mem d hx)
    show dropWs (d :: (w' ++ l)) = _
    unfold dropWs
    rw [List.dropWhile_cons_of_pos hd]
    exact ih hw'

theorem dropWs_allws (w : List Char) (hw : allWs w) : dropWs w = [] := by
  have := dropWs_ws_left w hw []
  simpa using this

theorem allWs_reverse (w : List Char) (hw : allWs w) : allWs w.reverse :=
  fun c hc => hw c (List.mem_reverse.mp hc)

theorem jsTrim_ws_wrap (w1 x w2 : List Char) (h1 : allWs w1) (h2 : allWs w2) :
    jsTrim (w1 ++ (x ++ w2)) = jsTrim x := by
  unfold jsTrim
  rw [dropWs_ws_left w1 h1]
  cases hdx : dropWs x with
  | nil =>
    have hx2 : dropWs (x ++ w2) = [] := by
      have hw2nil : List.dropWhile jsWs w2 = [] := dropWs_allws w2 h2
      unfold dropWs at hdx ⊢
      rw [List.dropWhile_append, hdx]
      simpa using hw2nil
    rw [hx2]
  | cons y ys =>
    have hx2 : dropWs (x ++ w2) = (y :: ys) ++ w2 := by
      unfold dropWs at hdx ⊢
      rw [List.dropWhile_append, hdx]
      simp
    rw [hx2, List.reverse_append]
    rw [dropWs_ws_left w2.reverse (allWs_reverse w2 h2)]

theorem allWs_takeWhile (l : List Char) : allWs (l.takeWhile jsWs) := by
  intro c hc
  exact List.mem_takeWhile_imp hc

theorem trim_decomp (u : List Char) :
    ∃ w1 w2, allWs w1 ∧ allWs w2 ∧ u = w1 ++ (jsTrim u ++ w2) := by
  refine ⟨u.takeWhile jsWs, ((dropWs u).reverse.takeWhile jsWs).reverse,
    allWs_takeWhile u, allWs_reverse _ (allWs_takeWhile _), ?_⟩
  have h1 : u = u.takeWhile jsWs ++ dropWs u := (List.takeWhile_append_dropWhile jsWs u).symm
  have h2 : (dropWs u).reverse =
      (dropWs u).reverse.takeWhile jsWs ++ dropWs ((dropWs u).reverse) :=
    (List.takeWhile_append_dropWhile jsWs (dropWs u).reverse).symm
  have h3 : dropWs u = jsTrim u ++ ((dropWs u).reverse.takeWhile jsWs).reverse := by
    have := congrArg List.reverse h2
    rw [List.reverse_reverse, List.reverse_append] at this
    exact this
  calc u = u.takeWhile jsWs ++ dropWs u := h1
    _ = u.takeWhile jsWs ++ (jsTrim u ++ ((dropWs u).reverse.takeWhile jsWs).reverse) := by
        rw [← h3]

theorem jsTrim_nonws_ends (c d : Char) (m : List Char)
    (hc : jsWs c = false) (hd : jsWs d = false) :
    jsTrim (c :: (m ++ [d])) = c :: (m ++ [d]) := by
  unfold jsTrim dropWs
  rw [List.dropWhile_cons_of_neg (by simp [hc])]
  have hrev : (c :: (m ++ [d])).reverse = d :: (m.reverse ++ [c]) := by
    simp
  rw [hrev]
  rw [List.dropWhile_cons_of_neg (by simp [hd])]
  rw [← hrev, List.reverse_reverse]

theorem cleanL_fence (t : List Char) :
    cleanL (fenceJson ++ '\n' :: (t ++ '\n' :: fence3)) = cleanL t := by
  have hfj : fenceJson ≠ ([] : List Char) := by decide
  have hf3 : fence3 ≠ ([] : List Char) := by decide
  have hfjw : wsFree fenceJson := by unfold wsFree; decide
  have hf3w : wsFree fence3 := by unfold wsFree; decide
  have hnl : jsWs '\n' = true := by decide
  have hnlw : allWs ['\n'] := by intro c hc; simp at hc; subst hc; exact hnl
  -- the outer trim is the identity on the fenced text
  have hshape : fenceJson ++ '\n' :: (t ++ '\n' :: fence3) =
      bq :: (([bq, bq, 'j', 's', 'o', 'n', '\n'] ++ (t ++ ['\n', bq, bq])) ++ [bq]) := by
    simp [fenceJson, fence3]
  have h1 : jsTrim (fenceJson ++ '\n' :: (t ++ '\n' :: fence3)) =
      fenceJson ++ '\n' :: (t ++ '\n' :: fence3) := by
    rw [hshape]
    exact jsTrim_nonws_ends bq bq _ (by decide) (by decide)
  -- removing the ```json occurrences
  have h2 : replAll fenceJson (fenceJson ++ '\n' :: (t ++ '\n' :: fence3)) =
      '\n' :: (replAll fenceJson t ++ '\n' :: fence3) := by
    rw [replAll_pat_head _ hfj]
    rw [show ('\n' :: (t ++ '\n' :: fence3) : List Char) = ['\n'] ++ (t ++ '\n' :: fence3)
      from rfl]
    rw [replAll_ws_left _ hfj hfjw ['\n'] _ hnlw]
    rw [replAll_sep _ hfj hfjw '\n' hnl t.length t (le_refl _) fence3]
    rw [show replAll fenceJson fence3 = fence3 from by decide]
    rfl
  -- removing the ``` occurrences
  have h3 : replAll fence3 ('\n' :: (replAll fenceJson t ++ '\n' :: fence3)) =
      '\n' :: (replAll fence3 (replAll fenceJson t) ++ ['\n']) := by
    rw [show ('\n' :: (replAll fenceJson t ++ '\n' :: fence3) : List Char) =
      ['\n'] ++ (replAll fenceJson t ++ '\n' :: fence3) from rfl]
    rw [replAll_ws_left _ hf3 hf3w ['\n'] _ hnlw]
    rw [replAll_sep _ hf3 hf3w '\n' hnl (replAll fenceJson t).length _ (le_refl _) fence3]
    rw [show replAll fence3 fence3 = [] from by decide]
    rfl
  -- assembling the left-hand side
  have hL : cleanL (fenceJson ++ '\n' :: (t ++ '\n' :: fence3)) =
      jsTrim (replAll fence3 (replAll fenceJson t)) := by
    unfold cleanL
    rw [h1, h2, h3]
    rw [show ('\n' :: (replAll fence3 (replAll fenceJson t) ++ ['\n']) : List Char) =
      ['\n'] ++ (replAll fence3 (replAll fenceJson t) ++ ['\n']) from rfl]
    exact jsTrim_ws_wrap ['\n'] _ ['\n'] hnlw hnlw
  -- the right-hand side differs only by outer whitespace
  obtain ⟨w1, w2, hw1, hw2, hdec⟩ := trim_decomp t
  have hR : cleanL t = jsTrim (replAll fence3 (replAll fenceJson (jsTrim t))) := rfl
  rw [hL, hR]
  conv_lhs => rw [hdec]
  rw [replAll_ws_left _ hfj hfjw w1 _ hw1]
  rw [replAll_ws_right _ hfj hfjw (jsTrim t) w2 hw2]
  rw [replAll_ws_left _ hf3 hf3w w1 _ hw1]
  rw [replAll_ws_right _ hf3 hf3w (replAll fenceJson (jsTrim t)) w2 hw2]
  exact jsTrim_ws_wrap w1 _ w2 hw1 hw2

/-- C6: wrapping any extraction response text in the ```json / ``` fence
markers changes nothing — the cleaned text, the parsed value, and the whole
scan outcome are identical to those of the unfenced text. -/
theorem fenced_parse_same :
    ∀ t : String,
      cleanLLMText (fenceWrap t) = cleanLLMText t ∧
      jsonParse (cleanLLMText (fenceWrap t)) = jsonParse (cleanLLMText t) ∧
      ∀ (now : Int) (sf : Bool), handleScan now (fenceWrap t) sf = handleScan now t sf := by
  intro t
  have hto : (fenceWrap t).toList = fenceJson ++ '\n' :: (t.toList ++ '\n' :: fence3) := by
    unfold fenceWrap
    rw [strToList_app, strToList_app]
    rw [show ("```json\n" : String).toList = fenceJson ++ ['\n'] from by decide]
    rw [show ("\n```" : String).toList = '\n' :: fence3 from by decide]
    simp
  have hclean : cleanLLMText (fenceWrap t) = cleanLLMText t := by
    unfold cleanLLMText
    rw [hto, cleanL_fence]
  refine ⟨hclean, by rw [hclean], fun now sf => ?_⟩
  unfold handleScan handleScanCore
  rw [hclean]

end Chop
